import Mathlib

/-!
Verification of the taskiq worker execution engine
(`src/taskiq/cli/async_task_runner.py`).

The Python source is shallowly embedded as executable Lean functions:

* `parse_params` embeds `parse_params` (lines 24-85): best-effort coercion
  of a message's positional and keyword arguments, driven by the handler's
  signature.  The external pydantic `parse_obj_as` conversion is abstracted
  as an oracle `Annot → Val → ParseOutcome`; the outcome distinguishes
  success, a `ValueError`/`RuntimeError` (the exception classes the source
  catches on lines 76 and 84), and any other exception class (uncaught).
* `run_task` embeds `run_task` (lines 102-180), with the wall clock
  abstracted as an `execution_time` input and the handler abstracted as a
  function from the (coerced) message to an outcome plus the log text it
  emits inside the `log_collector` scope.
* `exit_process` embeds `exit_process` (lines 183-213).
* `signal_handler` embeds the `_handler` closure (lines 230-254) as a step
  on an explicit shutdown state.
* `processMessage` / `async_listen_messages` embed the body of the
  `async for` consumption loop (lines 290-336); observable actions
  (decode attempts, skips, executor entry, `set_result` calls) are
  recorded as `Event`s, and an uncaught exception escaping the loop body
  is recorded as the `crashed` flag.

Exceptions are modelled with `Except Unit`: `Except.error ()` marks an
exception propagating to the caller.
-/

/-- Runtime values carried in a message's `args` / `kwargs`.  `vNone`
models Python's `None`. -/
inductive Val where
  | vNone : Val
  | vBool : Bool → Val
  | vInt : Int → Val
  | vStr : String → Val
  deriving DecidableEq, Repr

/-- A parameter's declared annotation in an `inspect.Signature`.  `empty`
models `params_type.empty` (no annotation, line 64). -/
inductive Annot where
  | empty : Annot
  | tyInt : Annot
  | tyStr : Annot
  deriving DecidableEq, Repr

/-- Outcome of one call of the conversion `parse_obj_as(annot, value)`
(external pydantic, abstracted).  The source's `except` on lines 76 and 84
catches exactly `ValueError` and `RuntimeError`; any other exception class
is `errOther` and is not caught by `parse_params`. -/
inductive ParseOutcome where
  | ok : Val → ParseOutcome
  | errValueOrRuntime : ParseOutcome
  | errOther : ParseOutcome
  deriving DecidableEq, Repr

/-- A decoded `TaskiqMessage`: task name, task id, positional `args` and
keyword `kwargs` (a Python dict, embedded as an association list with the
insertion order kept). -/
structure TaskiqMessage where
  task_name : String
  task_id : String
  args : List Val
  kwargs : List (String × Val)
  deriving DecidableEq, Repr

/-- Dict lookup on an association list (first binding of the key wins,
as in a Python dict, whose keys are unique). -/
def kwLookup : List (String × Val) → String → Option Val
  | [], _ => none
  | (k1, v) :: rest, k => if k1 = k then some v else kwLookup rest k

/-- Embeds `message.kwargs.get(param_name)` (line 71): `None` both when
the key is absent and when the stored value is `None`. -/
def kwGet (kw : List (String × Val)) (k : String) : Val :=
  match kwLookup kw k with
  | some v => v
  | none => Val.vNone

/-- Embeds `message.kwargs[param_name] = ...` (line 75): replace the
binding of the key, appending when absent (the source only ever assigns
keys that are present). -/
def kwSet : List (String × Val) → String → Val → List (String × Val)
  | [], k, v => [(k, v)]
  | (k1, v1) :: rest, k, v =>
      if k1 = k then (k, v) :: rest else (k1, v1) :: kwSet rest k v

/-- The loop of `parse_params` over `signature.parameters.items()`
(lines 62-85).  `argnum` carries the Python `argnum` counter, shifted by
one: the source initialises it to `-1` and increments it before use for
every annotated parameter, so here it starts at `0` and is incremented
after use.  Parameters with an empty annotation are skipped WITHOUT
touching the counter (line 64-65).  `msg.args.get? argnum = none` is
exactly the source's `argnum >= len(message.args)` test (line 70).
A conversion raising `ValueError`/`RuntimeError` is swallowed, keeping
the original value; any other exception propagates (`Except.error`). -/
def parseParamsGo (conv : Annot → Val → ParseOutcome) :
    List (String × Annot) → Nat → TaskiqMessage → Except Unit TaskiqMessage
  | [], _, msg => Except.ok msg
  | (pname, annot) :: rest, argnum, msg =>
      if annot = Annot.empty then
        parseParamsGo conv rest argnum msg
      else
        match msg.args.get? argnum with
        | some value =>
            if value = Val.vNone then
              parseParamsGo conv rest (argnum + 1) msg
            else
              match conv annot value with
              | ParseOutcome.ok w =>
                  parseParamsGo conv rest (argnum + 1)
                    { msg with args := msg.args.set argnum w }
              | ParseOutcome.errValueOrRuntime =>
                  parseParamsGo conv rest (argnum + 1) msg
              | ParseOutcome.errOther => Except.error ()
        | none =>
            let value := kwGet msg.kwargs pname
            if value = Val.vNone then
              parseParamsGo conv rest (argnum + 1) msg
            else
              match conv annot value with
              | ParseOutcome.ok w =>
                  parseParamsGo conv rest (argnum + 1)
                    { msg with kwargs := kwSet msg.kwargs pname w }
              | ParseOutcome.errValueOrRuntime =>
                  parseParamsGo conv rest (argnum + 1) msg
              | ParseOutcome.errOther => Except.error ()

/-- Embeds `parse_params(signature, message)` (lines 24-85).  A `none`
signature returns at once (line 60-61).  The message is threaded
explicitly in place of the source's in-place mutation; `Except.error ()`
is an exception escaping `parse_params` to its caller. -/
def parse_params (conv : Annot → Val → ParseOutcome)
    (signature : Option (List (String × Annot))) (message : TaskiqMessage) :
    Except Unit TaskiqMessage :=
  match signature with
  | none => Except.ok message
  | some sig => parseParamsGo conv sig 0 message

/-- The annotations of a signature's typed parameters, in signature
order.  The source's `argnum` counter advances exactly once per typed
parameter, so the typed parameter of rank `i` in this list is the one
whose coercion targets positional index `i`. -/
def typedAnnots : List (String × Annot) → List Annot
  | [] => []
  | (_, annot) :: rest =>
      if annot = Annot.empty then typedAnnots rest else annot :: typedAnnots rest

/-- An example conversion oracle standing in for pydantic `parse_obj_as`
in concrete instances (theorems quantify over arbitrary oracles): an
`int` annotation accepts ints and bools (pydantic coerces bools to ints),
a `str` annotation accepts strings; every failure is a `ValueError`. -/
def convStd : Annot → Val → ParseOutcome
  | Annot.empty, v => ParseOutcome.ok v
  | Annot.tyInt, Val.vInt n => ParseOutcome.ok (Val.vInt n)
  | Annot.tyInt, Val.vBool b => ParseOutcome.ok (Val.vInt (if b then 1 else 0))
  | Annot.tyInt, _ => ParseOutcome.errValueOrRuntime
  | Annot.tyStr, Val.vStr s => ParseOutcome.ok (Val.vStr s)
  | Annot.tyStr, _ => ParseOutcome.errValueOrRuntime

/-- A conversion oracle that always fails with an exception class other
than `ValueError`/`RuntimeError` (for instance a `TypeError` from
`parse_obj_as`). -/
def convBoom : Annot → Val → ParseOutcome := fun _ _ => ParseOutcome.errOther

/-- Outcome of one handler invocation: the handler either returned a value
or raised an exception (`Exception`, the class caught on line 153). -/
inductive HandlerOutcome where
  | ok : Val → HandlerOutcome
  | exc : HandlerOutcome
  deriving DecidableEq, Repr

/-- Embeds `TaskiqResult` as built on lines 164-169.  `return_value` is
`vNone` when the handler raised (the source initialises `returned = None`
on line 137 and never assigns it on the exception path). -/
structure TaskiqResult where
  is_err : Bool
  log : String
  return_value : Val
  execution_time : Nat
  deriving DecidableEq, Repr

/-- A registered task's handler: `isCoroutine` is
`asyncio.iscoroutinefunction(target)` (line 144), `signature` is
`inspect.signature(task.original_func)` (line 289), and `run` is the call
`target(*message.args, **message.kwargs)` abstracted as a function of the
(coerced) message, returning the outcome together with the log text the
call emits inside the `log_collector` scope. -/
structure Handler where
  isCoroutine : Bool
  signature : List (String × Annot)
  run : TaskiqMessage → HandlerOutcome × String

/-- A `TaskiqMiddleware`: each hook either succeeds (`Except.ok`, with
`pre_execute` returning the replacement message, line 313) or raises
(`Except.error ()`). -/
structure TaskiqMiddleware where
  pre_execute : TaskiqMessage → Except Unit TaskiqMessage
  on_error : TaskiqMessage → TaskiqResult → Except Unit Unit
  post_execute : TaskiqMessage → TaskiqResult → Except Unit Unit

/-- Embeds `run_sync` (lines 88-99): calls the target with the message's
args and kwargs. -/
def run_sync (target : TaskiqMessage → HandlerOutcome × String)
    (message : TaskiqMessage) : HandlerOutcome × String :=
  target message

/-- The `for middleware in middlewares: await ... middleware.on_error(...)`
loop of `run_task` (lines 171-178).  The calls are not inside any `try`:
a hook raising propagates at once and the remaining hooks are skipped. -/
def runOnError (middlewares : List TaskiqMiddleware) (message : TaskiqMessage)
    (result : TaskiqResult) : Except Unit Unit :=
  match middlewares with
  | [] => Except.ok ()
  | mw :: rest =>
      match mw.on_error message result with
      | Except.ok _ => runOnError rest message result
      | Except.error e => Except.error e

/-- Embeds `run_task` (lines 102-180).  `parse_params` is called on
line 140 outside any `try`, so an exception it does not swallow escapes
`run_task`.  The handler call is guarded by `try/except Exception`
(lines 143-159): a raise sets `found_exception`, so
`is_err := found_exception is not None` (line 165).  When the handler
raised, the `on_error` hooks run (lines 170-178) outside any `try`, so a
raising hook escapes `run_task`.  The wall clock is abstracted as the
`execution_time` input. -/
def run_task (conv : Annot → Val → ParseOutcome) (target : Handler)
    (signature : Option (List (String × Annot))) (message : TaskiqMessage)
    (execution_time : Nat) (middlewares : List TaskiqMiddleware) :
    Except Unit TaskiqResult :=
  match parse_params conv signature message with
  | Except.error e => Except.error e
  | Except.ok msg =>
      let out :=
        if target.isCoroutine then target.run msg else run_sync target.run msg
      let result : TaskiqResult :=
        { is_err := out.1 = HandlerOutcome.exc
          log := out.2
          return_value :=
            match out.1 with
            | HandlerOutcome.ok v => v
            | HandlerOutcome.exc => Val.vNone
          execution_time := execution_time }
      if result.is_err then
        match runOnError middlewares msg result with
        | Except.ok _ => Except.ok result
        | Except.error e => Except.error e
      else
        Except.ok result

/-- The shutdown bookkeeping observed by the signal handler:
`is_shutting_down` is the `broker._is_shutting_down` flag (lines 241,
250; `getattr` defaults it to `False`), `scheduled_shutdowns` counts the
`asyncio.create_task(broker.shutdown())` calls (line 252) and
`exit_callbacks` counts the `task.add_done_callback(exit_process)` calls
(line 253) — each scheduled teardown task runs `exit_process`, hence a
process-exit call, exactly once when it completes. -/
structure ShutdownState where
  is_shutting_down : Bool
  scheduled_shutdowns : Nat
  exit_callbacks : Nat
  deriving DecidableEq, Repr

/-- The shutdown state at worker start: not shutting down, nothing
scheduled. -/
def initialShutdownState : ShutdownState :=
  { is_shutting_down := false, scheduled_shutdowns := 0, exit_callbacks := 0 }

/-- Embeds one delivery of the `_handler` closure built by
`signal_handler` (lines 230-254): a trigger observing the
shutting-down flag returns at once (lines 241-243); otherwise it sets the
flag, schedules the teardown task and attaches the `exit_process`
callback. -/
def signal_handler (s : ShutdownState) : ShutdownState :=
  if s.is_shutting_down then s
  else
    { is_shutting_down := true
      scheduled_shutdowns := s.scheduled_shutdowns + 1
      exit_callbacks := s.exit_callbacks + 1 }

/-- What `exit_process` does besides terminating: the exit status passed
to `sys.exit` (line 213), whether the teardown-failure warning was logged
(lines 204-205), and that every task in the loop is cancelled
(lines 209-210). -/
structure ExitAction where
  exitcode : Nat
  warned : Bool
  cancels_all_tasks : Bool
  deriving DecidableEq, Repr

/-- Embeds `exit_process` (lines 183-213).  Its input is the outcome of
the `broker.shutdown()` task: `task.result()` either returns a value
(possibly `None`) or re-raises the exception the task raised.  The
exception path sets `exitcode = 1` (lines 203-206); every path cancels
all tasks and exits with `exitcode`. -/
def exit_process (task_outcome : Except Unit (Option Val)) : ExitAction :=
  match task_outcome with
  | Except.ok _ => { exitcode := 0, warned := false, cancels_all_tasks := true }
  | Except.error _ => { exitcode := 1, warned := true, cancels_all_tasks := true }

/-- A raw message as produced by `broker.listen()` (line 290): the fields
the loop reads before decoding. -/
structure RawMessage where
  task_name : String
  task_id : String
  deriving DecidableEq, Repr

/-- The broker capabilities `async_listen_messages` consumes:
the task registry `available_tasks`, the middleware list, the decoder
`broker.formatter.loads` (line 303) and the result backend call
`broker.result_backend.set_result` (line 330), both of which may raise. -/
structure AsyncBroker where
  available_tasks : List (String × Handler)
  middlewares : List TaskiqMiddleware
  loads : RawMessage → Except Unit TaskiqMessage
  set_result : String → TaskiqResult → Except Unit Unit

/-- Registry lookup, embedding `broker.available_tasks[...]` /
the `in` test on line 292. -/
def regLookup {β : Type} : List (String × β) → String → Option β
  | [], _ => none
  | (k1, v) :: rest, k => if k1 = k then some v else regLookup rest k

/-- The `for middleware in broker.middlewares: taskiq_msg = await
... middleware.pre_execute(taskiq_msg)` loop (lines 312-317), threading
the possibly rewritten message; not inside any `try`, so a raising hook
propagates. -/
def runPre (middlewares : List TaskiqMiddleware) (msg : TaskiqMessage) :
    Except Unit TaskiqMessage :=
  match middlewares with
  | [] => Except.ok msg
  | mw :: rest =>
      match mw.pre_execute msg with
      | Except.ok m2 => runPre rest m2
      | Except.error e => Except.error e

/-- The `for middleware in broker.middlewares: await
... middleware.post_execute(taskiq_msg, result)` loop (lines 327-328);
not inside any `try`, so a raising hook propagates. -/
def runPost (middlewares : List TaskiqMiddleware) (msg : TaskiqMessage)
    (result : TaskiqResult) : Except Unit Unit :=
  match middlewares with
  | [] => Except.ok ()
  | mw :: rest =>
      match mw.post_execute msg result with
      | Except.ok _ => runPost rest msg result
      | Except.error e => Except.error e

/-- Observable actions of the consumption loop, in program order:
`loadsCalled` marks the decode attempt (line 303), `skippedUnknown` the
unknown-task skip (lines 292-297), `skippedDecodeError` the decode-failure
skip (lines 304-311), `executed` the entry into `run_task` (line 319), and
`setResultCall` the `set_result` call (line 330). -/
inductive Event where
  | loadsCalled : String → Event
  | skippedUnknown : String → Event
  | skippedDecodeError : String → Event
  | executed : String → Event
  | setResultCall : String → TaskiqResult → Event
  deriving DecidableEq, Repr

/-- Whether an event is a `set_result` call. -/
def Event.isSetResult : Event → Bool
  | Event.setResultCall _ _ => true
  | _ => false

/-- Whether an event is an entry into `run_task`. -/
def Event.isExecuted : Event → Bool
  | Event.executed _ => true
  | _ => false

/-- The body of the `async for message in broker.listen()` loop
(lines 290-336) for one message: returns the events it performs and
whether an uncaught exception escaped the body (crashing the loop).
Program order: registry check FIRST (line 292), decode inside `try`
SECOND (lines 302-311); then the `pre_execute` chain, `run_task` and the
`post_execute` chain, none of which is guarded; finally `set_result`
inside `try/except` (lines 329-336), whose failure is swallowed. -/
def processMessage (conv : Annot → Val → ParseOutcome) (broker : AsyncBroker)
    (task_signatures : List (String × List (String × Annot)))
    (execution_time : Nat) (message : RawMessage) : List Event × Bool :=
  match regLookup broker.available_tasks message.task_name with
  | none => ([Event.skippedUnknown message.task_name], false)
  | some handler =>
      match broker.loads message with
      | Except.error _ =>
          ([Event.loadsCalled message.task_name,
            Event.skippedDecodeError message.task_name], false)
      | Except.ok taskiq_msg =>
          match runPre broker.middlewares taskiq_msg with
          | Except.error _ => ([Event.loadsCalled message.task_name], true)
          | Except.ok msg1 =>
              match run_task conv handler
                  (regLookup task_signatures message.task_name) msg1
                  execution_time broker.middlewares with
              | Except.error _ =>
                  ([Event.loadsCalled message.task_name,
                    Event.executed message.task_name], true)
              | Except.ok result =>
                  match runPost broker.middlewares msg1 result with
                  | Except.error _ =>
                      ([Event.loadsCalled message.task_name,
                        Event.executed message.task_name], true)
                  | Except.ok _ =>
                      match broker.set_result message.task_id result with
                      | Except.ok _ =>
                          ([Event.loadsCalled message.task_name,
                            Event.executed message.task_name,
                            Event.setResultCall message.task_id result], false)
                      | Except.error _ =>
                          ([Event.loadsCalled message.task_name,
                            Event.executed message.task_name,
                            Event.setResultCall message.task_id result], false)

/-- Embeds the `async for` consumption loop of `async_listen_messages`
(lines 290-336) over a finite prefix of the message stream, with the
task signatures already precomputed (lines 286-289).  The loop stops
early exactly when a message's processing lets an exception escape
(`crashed = true`); otherwise every message is processed in stream
order. -/
def async_listen_messages (conv : Annot → Val → ParseOutcome)
    (broker : AsyncBroker)
    (task_signatures : List (String × List (String × Annot)))
    (execution_time : Nat) : List RawMessage → List Event × Bool
  | [] => ([], false)
  | m :: rest =>
      let step := processMessage conv broker task_signatures execution_time m
      if step.2 then (step.1, true)
      else
        let next :=
          async_listen_messages conv broker task_signatures execution_time rest
        (step.1 ++ next.1, next.2)

/-- Embeds the signature-precomputation loop (lines 286-289):
with `--no-parse` no signature is recorded and `run_task` receives
`None`. -/
def build_task_signatures (no_parse : Bool) (tasks : List (String × Handler)) :
    List (String × List (String × Annot)) :=
  if no_parse then []
  else tasks.map (fun p => (p.1, p.2.signature))

/-- A middleware none of whose hooks ever raises. -/
def goodMiddleware (mw : TaskiqMiddleware) : Prop :=
  (∀ m, ∃ m2, mw.pre_execute m = Except.ok m2) ∧
  (∀ m r, mw.on_error m r = Except.ok ()) ∧
  (∀ m r, mw.post_execute m r = Except.ok ())

/-- The frame conditions `parse_params` respects relative to a signature:
the task identity fields, the number of positional arguments and the
keyword key list are untouched; a `None` positional argument, a `None`
keyword value, and the keyword binding of any name that is not a typed
parameter of the signature are all left bit-for-bit intact. -/
def ParamsFrame (sig : List (String × Annot)) (msg msg2 : TaskiqMessage) : Prop :=
  msg2.task_name = msg.task_name ∧
  msg2.task_id = msg.task_id ∧
  msg2.args.length = msg.args.length ∧
  msg2.kwargs.map Prod.fst = msg.kwargs.map Prod.fst ∧
  (∀ j, msg.args.get? j = some Val.vNone → msg2.args.get? j = some Val.vNone) ∧
  (∀ k, kwLookup msg.kwargs k = some Val.vNone →
    kwLookup msg2.kwargs k = some Val.vNone) ∧
  (∀ k, (∀ a, (k, a) ∈ sig → a = Annot.empty) →
    kwLookup msg2.kwargs k = kwLookup msg.kwargs k)

/-- A registered handler that returns the int 0 and emits no log text. -/
def hOk : Handler :=
  { isCoroutine := true, signature := [],
    run := fun _ => (HandlerOutcome.ok (Val.vInt 0), "") }

/-- A registered handler whose body raises. -/
def hExc : Handler :=
  { isCoroutine := false, signature := [],
    run := fun _ => (HandlerOutcome.exc, "") }

/-- A middleware none of whose hooks raises. -/
def mwGood : TaskiqMiddleware :=
  { pre_execute := fun m => Except.ok m,
    on_error := fun _ _ => Except.ok (),
    post_execute := fun _ _ => Except.ok () }

/-- A middleware whose pre_execute hook raises. -/
def mwBadPre : TaskiqMiddleware :=
  { pre_execute := fun _ => Except.error (),
    on_error := fun _ _ => Except.ok (),
    post_execute := fun _ _ => Except.ok () }

/-- A middleware whose on_error hook raises. -/
def mwBadOnError : TaskiqMiddleware :=
  { pre_execute := fun m => Except.ok m,
    on_error := fun _ _ => Except.error (),
    post_execute := fun _ _ => Except.ok () }

/-- A decoder that copies task_name and task_id and yields no arguments. -/
def loadsEmpty : RawMessage → Except Unit TaskiqMessage :=
  fun m =>
    Except.ok { task_name := m.task_name, task_id := m.task_id, args := [], kwargs := [] }

/-- A broker with an empty registry whose decoder would raise on any
message. -/
def brokerGhost : AsyncBroker :=
  { available_tasks := [], middlewares := [],
    loads := fun _ => Except.error (),
    set_result := fun _ _ => Except.ok () }

/-- A broker with task t1 registered and a decoder that raises. -/
def brokerDecodeFail : AsyncBroker :=
  { available_tasks := [("t1", hOk)], middlewares := [],
    loads := fun _ => Except.error (),
    set_result := fun _ _ => Except.ok () }

/-- A broker with task t1 registered and a pre_execute hook that raises. -/
def brokerBadPre : AsyncBroker :=
  { available_tasks := [("t1", hOk)], middlewares := [mwBadPre],
    loads := loadsEmpty,
    set_result := fun _ _ => Except.ok () }

/-- A broker exercising every contained error class at once: its only
handler raises, its result backend raises, its decoder raises on messages
whose task_id is bad, and it carries a well-behaved middleware. -/
def brokerMixed : AsyncBroker :=
  { available_tasks := [("t1", hExc)], middlewares := [mwGood],
    loads := fun m => if m.task_id = "bad" then Except.error () else loadsEmpty m,
    set_result := fun _ _ => Except.error () }

/-- An empty decoded message fixture. -/
def msgEmpty : TaskiqMessage :=
  { task_name := "t", task_id := "i", args := [], kwargs := [] }

/-- A conversion oracle on which every conversion fails with a
`ValueError`/`RuntimeError`. -/
def convVR : Annot → Val → ParseOutcome := fun _ _ => ParseOutcome.errValueOrRuntime

/-- `convStd` never raises outside `ValueError`/`RuntimeError`. -/
theorem convStd_ne_errOther : ∀ a v, convStd a v ≠ ParseOutcome.errOther := by
  intro a v
  cases a <;> cases v <;> simp [convStd]

example :
    parse_params convStd (some [("a", Annot.tyInt)])
      { task_name := "t", task_id := "i", args := [Val.vBool true], kwargs := [] } =
    Except.ok
      { task_name := "t", task_id := "i", args := [Val.vInt 1], kwargs := [] } := rfl

theorem runPre_ok :
    ∀ (middlewares : List TaskiqMiddleware),
      (∀ mw ∈ middlewares, goodMiddleware mw) →
      ∀ msg, ∃ m2, runPre middlewares msg = Except.ok m2 := by
  intro middlewares
  induction middlewares with
  | nil => intro _ msg; exact ⟨msg, rfl⟩
  | cons mw rest ih =>
      intro h msg
      obtain ⟨m2, h2⟩ := (h mw (List.mem_cons_self mw rest)).1 msg
      obtain ⟨m3, h3⟩ := ih (fun x hx => h x (List.mem_cons_of_mem mw hx)) m2
      exact ⟨m3, by simp only [runPre, h2]; exact h3⟩

theorem runOnError_ok :
    ∀ (middlewares : List TaskiqMiddleware),
      (∀ mw ∈ middlewares, ∀ m r, mw.on_error m r = Except.ok ()) →
      ∀ msg r, runOnError middlewares msg r = Except.ok () := by
  intro middlewares
  induction middlewares with
  | nil => intro _ _ _; rfl
  | cons mw rest ih =>
      intro h msg r
      have h2 := h mw (List.mem_cons_self mw rest) msg r
      simp only [runOnError, h2]
      exact ih (fun x hx => h x (List.mem_cons_of_mem mw hx)) msg r

theorem runPost_ok :
    ∀ (middlewares : List TaskiqMiddleware),
      (∀ mw ∈ middlewares, goodMiddleware mw) →
      ∀ msg r, runPost middlewares msg r = Except.ok () := by
  intro middlewares
  induction middlewares with
  | nil => intro _ _ _; rfl
  | cons mw rest ih =>
      intro h msg r
      have h2 := (h mw (List.mem_cons_self mw rest)).2.2 msg r
      simp only [runPost, h2]
      exact ih (fun x hx => h x (List.mem_cons_of_mem mw hx)) msg r

theorem parseParamsGo_ok (conv : Annot → Val → ParseOutcome)
    (hconv : ∀ a v, conv a v ≠ ParseOutcome.errOther)
    (sig : List (String × Annot)) :
    ∀ (argnum : Nat) (msg : TaskiqMessage),
      ∃ m2, parseParamsGo conv sig argnum msg = Except.ok m2 := by
  induction sig with
  | nil => intro argnum msg; exact ⟨msg, rfl⟩
  | cons p rest ih =>
      intro argnum msg
      obtain ⟨pname, annot⟩ := p
      simp only [parseParamsGo]
      by_cases he : annot = Annot.empty
      · rw [if_pos he]; exact ih argnum msg
      · rw [if_neg he]
        cases hg : msg.args.get? argnum with
        | some value =>
            dsimp only
            by_cases hv : value = Val.vNone
            · rw [if_pos hv]; exact ih (argnum + 1) msg
            · rw [if_neg hv]
              cases hc : conv annot value with
              | ok w => exact ih (argnum + 1) _
              | errValueOrRuntime => exact ih (argnum + 1) msg
              | errOther => exact absurd hc (hconv annot value)
        | none =>
            dsimp only
            by_cases hv : kwGet msg.kwargs pname = Val.vNone
            · rw [if_pos hv]; exact ih (argnum + 1) msg
            · rw [if_neg hv]
              cases hc : conv annot (kwGet msg.kwargs pname) with
              | ok w => exact ih (argnum + 1) _
              | errValueOrRuntime => exact ih (argnum + 1) msg
              | errOther => exact absurd hc (hconv annot _)

theorem parseParamsGo_id (conv : Annot → Val → ParseOutcome)
    (hconv : ∀ a v, conv a v = ParseOutcome.errValueOrRuntime)
    (sig : List (String × Annot)) :
    ∀ (argnum : Nat) (msg : TaskiqMessage),
      parseParamsGo conv sig argnum msg = Except.ok msg := by
  induction sig with
  | nil => intro argnum msg; rfl
  | cons p rest ih =>
      intro argnum msg
      obtain ⟨pname, annot⟩ := p
      simp only [parseParamsGo]
      by_cases he : annot = Annot.empty
      · rw [if_pos he]; exact ih argnum msg
      · rw [if_neg he]
        cases hg : msg.args.get? argnum with
        | some value =>
            dsimp only
            by_cases hv : value = Val.vNone
            · rw [if_pos hv]; exact ih (argnum + 1) msg
            · rw [if_neg hv, hconv annot value]; exact ih (argnum + 1) msg
        | none =>
            dsimp only
            by_cases hv : kwGet msg.kwargs pname = Val.vNone
            · rw [if_pos hv]; exact ih (argnum + 1) msg
            · rw [if_neg hv, hconv annot _]; exact ih (argnum + 1) msg

theorem parse_params_ok_aux (conv : Annot → Val → ParseOutcome)
    (hconv : ∀ a v, conv a v ≠ ParseOutcome.errOther)
    (sig : Option (List (String × Annot))) (msg : TaskiqMessage) :
    ∃ m2, parse_params conv sig msg = Except.ok m2 := by
  cases sig with
  | none => exact ⟨msg, rfl⟩
  | some s => exact parseParamsGo_ok conv hconv s 0 msg

theorem run_task_ok_aux (conv : Annot → Val → ParseOutcome) (target : Handler)
    (sig : Option (List (String × Annot))) (message : TaskiqMessage)
    (t : Nat) (mws : List TaskiqMiddleware)
    (hconv : ∀ a v, conv a v ≠ ParseOutcome.errOther)
    (hmw : ∀ mw ∈ mws, ∀ m r, mw.on_error m r = Except.ok ()) :
    ∃ r, run_task conv target sig message t mws = Except.ok r := by
  obtain ⟨msg2, hp⟩ := parse_params_ok_aux conv hconv sig message
  have hOE := runOnError_ok mws hmw
  simp only [run_task, hp]
  by_cases hb :
      (if target.isCoroutine then target.run msg2 else run_sync target.run msg2).1 =
        HandlerOutcome.exc
  · simp [hb, hOE]
  · simp [hb]

theorem kwSet_map_fst :
    ∀ (kw : List (String × Val)) (k : String) (v w : Val),
      kwLookup kw k = some w →
      (kwSet kw k v).map Prod.fst = kw.map Prod.fst := by
  intro kw
  induction kw with
  | nil => intro k v w h; cases h
  | cons p rest ih =>
      intro k v w h
      obtain ⟨k1, v1⟩ := p
      by_cases hk : k1 = k
      · subst hk; simp [kwSet, kwLookup] at h ⊢
      · simp only [kwLookup, if_neg hk] at h
        simp only [kwSet, if_neg hk, List.map_cons, List.cons.injEq, true_and]
        exact ih k v w h

theorem kwLookup_kwSet_ne :
    ∀ (kw : List (String × Val)) (k k2 : String) (v : Val), k2 ≠ k →
      kwLookup (kwSet kw k v) k2 = kwLookup kw k2 := by
  intro kw
  induction kw with
  | nil =>
      intro k k2 v hne
      simp only [kwSet, kwLookup]
      rw [if_neg (fun h => hne h.symm)]
  | cons p rest ih =>
      intro k k2 v hne
      obtain ⟨k1, v1⟩ := p
      by_cases hk : k1 = k
      · subst hk
        simp only [kwSet, if_pos rfl, kwLookup]
        rw [if_neg (fun h => hne h.symm), if_neg (fun h => hne h.symm)]
      · simp only [kwSet, if_neg hk, kwLookup]
        by_cases h2 : k1 = k2
        · rw [if_pos h2, if_pos h2]
        · rw [if_neg h2, if_neg h2]; exact ih k k2 v hne

theorem parseParamsGo_lower_frame (conv : Annot → Val → ParseOutcome)
    (sig : List (String × Annot)) :
    ∀ (argnum : Nat) (msg msg2 : TaskiqMessage),
      parseParamsGo conv sig argnum msg = Except.ok msg2 →
      ∀ i, i < argnum → msg2.args.get? i = msg.args.get? i := by
  induction sig with
  | nil =>
      intro argnum msg msg2 h i hi
      simp only [parseParamsGo, Except.ok.injEq] at h
      subst h
      rfl
  | cons p rest ih =>
      intro argnum msg msg2 h i hi
      obtain ⟨pname, annot⟩ := p
      simp only [parseParamsGo] at h
      by_cases he : annot = Annot.empty
      · rw [if_pos he] at h
        exact ih argnum msg msg2 h i hi
      · rw [if_neg he] at h
        cases hg : msg.args.get? argnum with
        | some value =>
            rw [hg] at h
            dsimp only at h
            by_cases hv : value = Val.vNone
            · rw [if_pos hv] at h
              exact ih (argnum + 1) msg msg2 h i (Nat.lt_succ_of_lt hi)
            · rw [if_neg hv] at h
              cases hc : conv annot value with
              | ok w =>
                  rw [hc] at h
                  dsimp only at h
                  have h2 := ih (argnum + 1) _ msg2 h i (Nat.lt_succ_of_lt hi)
                  rw [h2]
                  exact List.get?_set_ne w msg.args (Nat.ne_of_gt hi)
              | errValueOrRuntime =>
                  rw [hc] at h
                  dsimp only at h
                  exact ih (argnum + 1) msg msg2 h i (Nat.lt_succ_of_lt hi)
              | errOther =>
                  rw [hc] at h
                  exact Except.noConfusion h
        | none =>
            rw [hg] at h
            dsimp only at h
            by_cases hv : kwGet msg.kwargs pname = Val.vNone
            · rw [if_pos hv] at h
              exact ih (argnum + 1) msg msg2 h i (Nat.lt_succ_of_lt hi)
            · rw [if_neg hv] at h
              cases hc : conv annot (kwGet msg.kwargs pname) with
              | ok w =>
                  rw [hc] at h
                  dsimp only at h
                  exact ih (argnum + 1) _ msg2 h i (Nat.lt_succ_of_lt hi)
              | errValueOrRuntime =>
                  rw [hc] at h
                  dsimp only at h
                  exact ih (argnum + 1) msg msg2 h i (Nat.lt_succ_of_lt hi)
              | errOther =>
                  rw [hc] at h
                  exact Except.noConfusion h

theorem parseParamsGo_keeps_failed (conv : Annot → Val → ParseOutcome)
    (sig : List (String × Annot)) :
    ∀ (argnum : Nat) (msg msg2 : TaskiqMessage),
      parseParamsGo conv sig argnum msg = Except.ok msg2 →
      (∀ i a v, (typedAnnots sig).get? i = some a →
        msg.args.get? (argnum + i) = some v →
        conv a v = ParseOutcome.errValueOrRuntime →
        msg2.args.get? (argnum + i) = some v) ∧
      (∀ k, (∀ a, (k, a) ∈ sig → a = Annot.empty ∨
          conv a (kwGet msg.kwargs k) = ParseOutcome.errValueOrRuntime) →
        kwLookup msg2.kwargs k = kwLookup msg.kwargs k) := by
  induction sig with
  | nil =>
      intro argnum msg msg2 h
      simp only [parseParamsGo, Except.ok.injEq] at h
      subst h
      exact ⟨fun i a v _ h2 _ => h2, fun k _ => rfl⟩
  | cons p rest ih =>
      intro argnum msg msg2 h
      obtain ⟨pname, annot⟩ := p
      simp only [parseParamsGo] at h
      by_cases he : annot = Annot.empty
      · rw [if_pos he] at h
        obtain ⟨ihp, ihk⟩ := ih argnum msg msg2 h
        constructor
        · intro i a v h1 h2 h3
          simp only [typedAnnots, if_pos he] at h1
          exact ihp i a v h1 h2 h3
        · intro k hk
          exact ihk k (fun a ha => hk a (List.mem_cons_of_mem _ ha))
      · rw [if_neg he] at h
        cases hg : msg.args.get? argnum with
        | some value =>
            rw [hg] at h
            dsimp only at h
            by_cases hv : value = Val.vNone
            · rw [if_pos hv] at h
              obtain ⟨ihp, ihk⟩ := ih (argnum + 1) msg msg2 h
              constructor
              · intro i a v h1 h2 h3
                simp only [typedAnnots, if_neg he] at h1
                cases i with
                | zero =>
                    have hlf := parseParamsGo_lower_frame conv rest (argnum + 1)
                      msg msg2 h argnum (Nat.lt_succ_self argnum)
                    show msg2.args.get? argnum = some v
                    rw [hlf]
                    exact h2
                | succ j =>
                    have e : argnum + (j + 1) = (argnum + 1) + j := by omega
                    have h2b : msg.args.get? ((argnum + 1) + j) = some v := by
                      rw [← e]; exact h2
                    rw [e]
                    exact ihp j a v h1 h2b h3
              · intro k hk
                exact ihk k (fun a ha => hk a (List.mem_cons_of_mem _ ha))
            · rw [if_neg hv] at h
              cases hc : conv annot value with
              | ok w =>
                  rw [hc] at h
                  dsimp only at h
                  obtain ⟨ihp, ihk⟩ := ih (argnum + 1) _ msg2 h
                  constructor
                  · intro i a v h1 h2 h3
                    simp only [typedAnnots, if_neg he] at h1
                    cases i with
                    | zero =>
                        have ha : annot = a := Option.some.inj h1
                        have hvv : value = v := Option.some.inj (hg.symm.trans h2)
                        rw [← ha, ← hvv] at h3
                        rw [hc] at h3
                        exact ParseOutcome.noConfusion h3
                    | succ j =>
                        have e : argnum + (j + 1) = (argnum + 1) + j := by omega
                        have hne : argnum ≠ (argnum + 1) + j := by omega
                        have h2b : ({ msg with args := msg.args.set argnum w }).args.get?
                            ((argnum + 1) + j) = some v := by
                          show (msg.args.set argnum w).get? ((argnum + 1) + j) = some v
                          rw [List.get?_set_ne w msg.args hne, ← e]
                          exact h2
                        rw [e]
                        exact ihp j a v h1 h2b h3
                  · intro k hk
                    exact ihk k (fun a ha => hk a (List.mem_cons_of_mem _ ha))
              | errValueOrRuntime =>
                  rw [hc] at h
                  dsimp only at h
                  obtain ⟨ihp, ihk⟩ := ih (argnum + 1) msg msg2 h
                  constructor
                  · intro i a v h1 h2 h3
                    simp only [typedAnnots, if_neg he] at h1
                    cases i with
                    | zero =>
                        have hlf := parseParamsGo_lower_frame conv rest (argnum + 1)
                          msg msg2 h argnum (Nat.lt_succ_self argnum)
                        show msg2.args.get? argnum = some v
                        rw [hlf]
                        exact h2
                    | succ j =>
                        have e : argnum + (j + 1) = (argnum + 1) + j := by omega
                        have h2b : msg.args.get? ((argnum + 1) + j) = some v := by
                          rw [← e]; exact h2
                        rw [e]
                        exact ihp j a v h1 h2b h3
                  · intro k hk
                    exact ihk k (fun a ha => hk a (List.mem_cons_of_mem _ ha))
              | errOther =>
                  rw [hc] at h
                  exact Except.noConfusion h
        | none =>
            rw [hg] at h
            dsimp only at h
            by_cases hv : kwGet msg.kwargs pname = Val.vNone
            · rw [if_pos hv] at h
              obtain ⟨ihp, ihk⟩ := ih (argnum + 1) msg msg2 h
              constructor
              · intro i a v h1 h2 h3
                simp only [typedAnnots, if_neg he] at h1
                cases i with
                | zero => exact Option.noConfusion (hg.symm.trans h2)
                | succ j =>
                    have e : argnum + (j + 1) = (argnum + 1) + j := by omega
                    have h2b : msg.args.get? ((argnum + 1) + j) = some v := by
                      rw [← e]; exact h2
                    rw [e]
                    exact ihp j a v h1 h2b h3
              · intro k hk
                exact ihk k (fun a ha => hk a (List.mem_cons_of_mem _ ha))
            · rw [if_neg hv] at h
              cases hc : conv annot (kwGet msg.kwargs pname) with
              | ok w =>
                  rw [hc] at h
                  dsimp only at h
                  obtain ⟨ihp, ihk⟩ := ih (argnum + 1) _ msg2 h
                  constructor
                  · intro i a v h1 h2 h3
                    simp only [typedAnnots, if_neg he] at h1
                    cases i with
                    | zero => exact Option.noConfusion (hg.symm.trans h2)
                    | succ j =>
                        have e : argnum + (j + 1) = (argnum + 1) + j := by omega
                        have h2b : ({ msg with kwargs := kwSet msg.kwargs pname w }).args.get?
                            ((argnum + 1) + j) = some v := by
                          show msg.args.get? ((argnum + 1) + j) = some v
                          rw [← e]
                          exact h2
                        rw [e]
                        exact ihp j a v h1 h2b h3
                  · intro k hk
                    have hkpn : k ≠ pname := by
                      intro hkp
                      subst hkp
                      rcases hk annot (List.mem_cons_self _ _) with hempty | hfail
                      · exact he hempty
                      · rw [hc] at hfail
                        exact ParseOutcome.noConfusion hfail
                    have hkwmid :
                        kwGet ({ msg with kwargs := kwSet msg.kwargs pname w }).kwargs k =
                          kwGet msg.kwargs k := by
                      show kwGet (kwSet msg.kwargs pname w) k = kwGet msg.kwargs k
                      unfold kwGet
                      rw [kwLookup_kwSet_ne msg.kwargs pname k w hkpn]
                    have hrec := ihk k (fun a ha => by
                      rw [hkwmid]
                      exact hk a (List.mem_cons_of_mem _ ha))
                    rw [hrec]
                    show kwLookup (kwSet msg.kwargs pname w) k = kwLookup msg.kwargs k
                    exact kwLookup_kwSet_ne msg.kwargs pname k w hkpn
              | errValueOrRuntime =>
                  rw [hc] at h
                  dsimp only at h
                  obtain ⟨ihp, ihk⟩ := ih (argnum + 1) msg msg2 h
                  constructor
                  · intro i a v h1 h2 h3
                    simp only [typedAnnots, if_neg he] at h1
                    cases i with
                    | zero => exact Option.noConfusion (hg.symm.trans h2)
                    | succ j =>
                        have e : argnum + (j + 1) = (argnum + 1) + j := by omega
                        have h2b : msg.args.get? ((argnum + 1) + j) = some v := by
                          rw [← e]; exact h2
                        rw [e]
                        exact ihp j a v h1 h2b h3
                  · intro k hk
                    exact ihk k (fun a ha => hk a (List.mem_cons_of_mem _ ha))
              | errOther =>
                  rw [hc] at h
                  exact Except.noConfusion h

theorem paramsFrame_refl (sig : List (String × Annot)) (msg : TaskiqMessage) :
    ParamsFrame sig msg msg :=
  ⟨rfl, rfl, rfl, rfl, fun _ h => h, fun _ h => h, fun _ _ => rfl⟩

theorem paramsFrame_mono (p : String × Annot) (sig : List (String × Annot))
    (msg msg2 : TaskiqMessage) (h : ParamsFrame sig msg msg2) :
    ParamsFrame (p :: sig) msg msg2 := by
  obtain ⟨h1, h2, h3, h4, h5, h6, h7⟩ := h
  exact ⟨h1, h2, h3, h4, h5, h6,
    fun k hk => h7 k (fun a ha => hk a (List.mem_cons_of_mem p ha))⟩

theorem paramsFrame_trans_cons (p : String × Annot) (sig : List (String × Annot))
    (msg msgMid msg2 : TaskiqMessage)
    (hA : ParamsFrame (p :: sig) msg msgMid)
    (hB : ParamsFrame sig msgMid msg2) :
    ParamsFrame (p :: sig) msg msg2 := by
  obtain ⟨a1, a2, a3, a4, a5, a6, a7⟩ := hA
  obtain ⟨b1, b2, b3, b4, b5, b6, b7⟩ := hB
  refine ⟨b1.trans a1, b2.trans a2, b3.trans a3, b4.trans a4,
    fun j hj => b5 j (a5 j hj), fun k hk => b6 k (a6 k hk), fun k hk => ?_⟩
  have hrest : ∀ a, (k, a) ∈ sig → a = Annot.empty :=
    fun a ha => hk a (List.mem_cons_of_mem p ha)
  exact (b7 k hrest).trans (a7 k hk)

theorem paramsFrame_set_arg (p : String × Annot) (sig : List (String × Annot))
    (msg : TaskiqMessage) (argnum : Nat) (value w : Val)
    (hg : msg.args.get? argnum = some value) (hv : value ≠ Val.vNone) :
    ParamsFrame (p :: sig) msg { msg with args := msg.args.set argnum w } := by
  refine ⟨rfl, rfl, List.length_set msg.args argnum w, rfl, fun j hj => ?_,
    fun _ h => h, fun _ _ => rfl⟩
  by_cases hj2 : argnum = j
  · subst hj2
    exact absurd (Option.some.inj (hg.symm.trans hj)) hv
  · rw [List.get?_set_ne w msg.args hj2]
    exact hj

theorem paramsFrame_set_kw (pname : String) (annot : Annot)
    (sig : List (String × Annot)) (msg : TaskiqMessage) (w : Val)
    (he : annot ≠ Annot.empty) (hv : kwGet msg.kwargs pname ≠ Val.vNone) :
    ParamsFrame ((pname, annot) :: sig) msg
      { msg with kwargs := kwSet msg.kwargs pname w } := by
  obtain ⟨v0, hl, hv0⟩ :
      ∃ v0, kwLookup msg.kwargs pname = some v0 ∧ v0 ≠ Val.vNone := by
    cases hl : kwLookup msg.kwargs pname with
    | none => exact absurd (by simp [kwGet, hl]) hv
    | some v0 => exact ⟨v0, rfl, by simpa [kwGet, hl] using hv⟩
  refine ⟨rfl, rfl, rfl, kwSet_map_fst msg.kwargs pname w v0 hl, fun _ h => h,
    fun k hk => ?_, fun k hk => ?_⟩
  · have hkne : k ≠ pname := by
      intro h2
      subst h2
      exact hv0 (Option.some.inj (hl.symm.trans hk))
    rw [kwLookup_kwSet_ne msg.kwargs pname k w hkne]
    exact hk
  · have hkne : k ≠ pname := by
      intro h2
      subst h2
      exact he (hk annot (List.mem_cons_self _ _))
    rw [kwLookup_kwSet_ne msg.kwargs pname k w hkne]

theorem parseParamsGo_frame (conv : Annot → Val → ParseOutcome)
    (sig : List (String × Annot)) :
    ∀ (argnum : Nat) (msg msg2 : TaskiqMessage),
      parseParamsGo conv sig argnum msg = Except.ok msg2 →
      ParamsFrame sig msg msg2 := by
  induction sig with
  | nil =>
      intro argnum msg msg2 h
      simp only [parseParamsGo, Except.ok.injEq] at h
      subst h
      exact paramsFrame_refl [] msg
  | cons p rest ih =>
      intro argnum msg msg2 h
      obtain ⟨pname, annot⟩ := p
      simp only [parseParamsGo] at h
      by_cases he : annot = Annot.empty
      · rw [if_pos he] at h
        exact paramsFrame_mono _ rest msg msg2 (ih argnum msg msg2 h)
      · rw [if_neg he] at h
        cases hg : msg.args.get? argnum with
        | some value =>
            rw [hg] at h
            dsimp only at h
            by_cases hv : value = Val.vNone
            · rw [if_pos hv] at h
              exact paramsFrame_mono _ rest msg msg2 (ih (argnum + 1) msg msg2 h)
            · rw [if_neg hv] at h
              cases hc : conv annot value with
              | ok w =>
                  rw [hc] at h
                  dsimp only at h
                  exact paramsFrame_trans_cons (pname, annot) rest msg _ msg2
                    (paramsFrame_set_arg (pname, annot) rest msg argnum value w hg hv)
                    (ih (argnum + 1) _ msg2 h)
              | errValueOrRuntime =>
                  rw [hc] at h
                  dsimp only at h
                  exact paramsFrame_mono _ rest msg msg2 (ih (argnum + 1) msg msg2 h)
              | errOther =>
                  rw [hc] at h
                  exact Except.noConfusion h
        | none =>
            rw [hg] at h
            dsimp only at h
            by_cases hv : kwGet msg.kwargs pname = Val.vNone
            · rw [if_pos hv] at h
              exact paramsFrame_mono _ rest msg msg2 (ih (argnum + 1) msg msg2 h)
            · rw [if_neg hv] at h
              cases hc : conv annot (kwGet msg.kwargs pname) with
              | ok w =>
                  rw [hc] at h
                  dsimp only at h
                  exact paramsFrame_trans_cons (pname, annot) rest msg _ msg2
                    (paramsFrame_set_kw pname annot rest msg w he hv)
                    (ih (argnum + 1) _ msg2 h)
              | errValueOrRuntime =>
                  rw [hc] at h
                  dsimp only at h
                  exact paramsFrame_mono _ rest msg msg2 (ih (argnum + 1) msg msg2 h)
              | errOther =>
                  rw [hc] at h
                  exact Except.noConfusion h

theorem mwGood_good : goodMiddleware mwGood :=
  ⟨fun m => ⟨m, rfl⟩, fun _ _ => rfl, fun _ _ => rfl⟩

theorem brokerMixed_good : ∀ mw ∈ brokerMixed.middlewares, goodMiddleware mw := by
  intro mw hmw
  rw [show brokerMixed.middlewares = [mwGood] from rfl, List.mem_singleton] at hmw
  subst hmw
  exact mwGood_good

theorem processMessage_no_crash (conv : Annot → Val → ParseOutcome)
    (broker : AsyncBroker) (ts : List (String × List (String × Annot)))
    (t : Nat) (m : RawMessage)
    (hconv : ∀ a v, conv a v ≠ ParseOutcome.errOther)
    (hmw : ∀ mw ∈ broker.middlewares, goodMiddleware mw) :
    (processMessage conv broker ts t m).2 = false := by
  simp only [processMessage]
  cases hr : regLookup broker.available_tasks m.task_name with
  | none => rfl
  | some handler =>
      cases hl : broker.loads m with
      | error e => rfl
      | ok tm =>
          obtain ⟨m1, hpre⟩ := runPre_ok broker.middlewares hmw tm
          obtain ⟨r, hrt⟩ := run_task_ok_aux conv handler
            (regLookup ts m.task_name) m1 t broker.middlewares hconv
            (fun mw h => (hmw mw h).2.1)
          simp only [hpre, hrt, runPost_ok broker.middlewares hmw m1 r]
          cases hs : broker.set_result m.task_id r <;> rfl

/-- C1: evaluation of `parse_params` at the failing input.  With the
signature `(a, b: int)` — `a` untyped at position 0, `b` typed at
position 1 — and positional arguments `[True, False]`, the code coerces
`args[0]` (the argument belonging to the UNTYPED parameter `a`) using
`b`'s `int` annotation, and never touches `args[1]`: the `argnum`
counter advances only on typed parameters, so positional coercion is
aligned to a parameter's rank among the typed parameters, not to its
position in the signature, contradicting the claimed alignment (and the
docstring's promise that making a parameter untyped skips its parsing). -/
theorem parse_params_misaligns_positionals :
    parse_params convStd (some [("a", Annot.empty), ("b", Annot.tyInt)])
      { task_name := "t", task_id := "i",
        args := [Val.vBool true, Val.vBool false], kwargs := [] } =
    Except.ok
      { task_name := "t", task_id := "i",
        args := [Val.vInt 1, Val.vBool false], kwargs := [] } := rfl

/-- C2 counterexample: a message whose task name is unregistered and
whose decode would raise is skipped as an unknown task, and the decoder
is never invoked — refuting the claim that decoding happens first and
that an undecodable message is skipped as a decode failure regardless of
registration. -/
theorem unknown_task_skips_before_decode :
    processMessage convStd brokerGhost [] 0
        { task_name := "ghost", task_id := "g1" } =
      ([Event.skippedUnknown "ghost"], false) ∧
    Event.loadsCalled "ghost" ∉
      (processMessage convStd brokerGhost [] 0
        { task_name := "ghost", task_id := "g1" }).1 := by
  refine ⟨rfl, ?_⟩
  decide

/-- C2 amended: the worker loop checks registry membership FIRST and
decodes only afterwards: an unregistered message is skipped as unknown
with no decode attempt, while a registered message whose decode raises
is logged and skipped as a decode failure. -/
theorem registry_checked_then_decoded (conv : Annot → Val → ParseOutcome)
    (broker : AsyncBroker) (ts : List (String × List (String × Annot)))
    (t : Nat) (m : RawMessage) :
    (regLookup broker.available_tasks m.task_name = none →
      processMessage conv broker ts t m =
        ([Event.skippedUnknown m.task_name], false)) ∧
    (∀ handler, regLookup broker.available_tasks m.task_name = some handler →
      broker.loads m = Except.error () →
      processMessage conv broker ts t m =
        ([Event.loadsCalled m.task_name,
          Event.skippedDecodeError m.task_name], false)) := by
  constructor
  · intro h
    simp only [processMessage, h]
  · intro handler h hl
    simp only [processMessage, h, hl]

theorem registry_checked_then_decoded_witness :
    processMessage convStd brokerGhost [] 0 { task_name := "g2", task_id := "x" } =
      ([Event.skippedUnknown "g2"], false) ∧
    processMessage convStd brokerDecodeFail [] 0
        { task_name := "t1", task_id := "x" } =
      ([Event.loadsCalled "t1", Event.skippedDecodeError "t1"], false) :=
  ⟨(registry_checked_then_decoded convStd brokerGhost [] 0
      { task_name := "g2", task_id := "x" }).1 rfl,
   (registry_checked_then_decoded convStd brokerDecodeFail [] 0
      { task_name := "t1", task_id := "x" }).2 hOk rfl rfl⟩

/-- C3 counterexample: with a middleware whose pre_execute hook raises,
the first message's processing crashes the whole loop and the second
message is never looked at — refuting the claim that every per-message
error (middleware hooks included) is contained and the loop continues. -/
theorem middleware_error_terminates_loop :
    async_listen_messages convStd brokerBadPre [] 0
      [{ task_name := "t1", task_id := "i1" },
       { task_name := "t1", task_id := "i2" }] =
    ([Event.loadsCalled "t1"], true) := rfl

/-- C3 amended: decode failures, unknown tasks, handler exceptions and
result-backend failures are contained in the message that caused them
and the loop continues; but an exception from a middleware pre_execute,
post_execute or on_error hook — or a non-ValueError/RuntimeError escaping
coercion — propagates and terminates the loop.  Proved here: whenever no
middleware hook raises and every conversion failure is a
ValueError/RuntimeError, no message crashes the loop, for any broker,
any stream of messages, any handler behaviour and any backend
behaviour. -/
theorem loop_contains_non_middleware_errors (conv : Annot → Val → ParseOutcome)
    (broker : AsyncBroker) (ts : List (String × List (String × Annot)))
    (t : Nat) (msgs : List RawMessage)
    (hconv : ∀ a v, conv a v ≠ ParseOutcome.errOther)
    (hmw : ∀ mw ∈ broker.middlewares, goodMiddleware mw) :
    (async_listen_messages conv broker ts t msgs).2 = false := by
  induction msgs with
  | nil => rfl
  | cons m rest ih =>
      simp only [async_listen_messages,
        processMessage_no_crash conv broker ts t m hconv hmw]
      simpa using ih

theorem loop_contains_non_middleware_errors_witness :
    (async_listen_messages convStd brokerMixed [] 0
      [{ task_name := "ghost", task_id := "a" },
       { task_name := "t1", task_id := "bad" },
       { task_name := "t1", task_id := "c" }]).2 = false :=
  loop_contains_non_middleware_errors convStd brokerMixed [] 0 _
    convStd_ne_errOther brokerMixed_good

/-- C4 counterexample: a raising on_error hook escapes `run_task` — the
call raises to its caller instead of absorbing the failure into the
returned result, refuting the claim that run_task never raises. -/
theorem run_task_raises_through_on_error :
    run_task convStd hExc none msgEmpty 0 [mwBadOnError] = Except.error () := rfl

/-- C4 amended: `run_task` never raises provided every coercion failure
is a ValueError/RuntimeError (which parse_params swallows) and no
on_error middleware hook raises; in particular every handler exception
is absorbed into the returned result.  An exception of another class
escaping the conversion, or a raising on_error hook, propagates to the
caller. -/
theorem run_task_never_raises (conv : Annot → Val → ParseOutcome)
    (target : Handler) (sig : Option (List (String × Annot)))
    (message : TaskiqMessage) (t : Nat) (mws : List TaskiqMiddleware)
    (hconv : ∀ a v, conv a v ≠ ParseOutcome.errOther)
    (hmw : ∀ mw ∈ mws, ∀ m r, mw.on_error m r = Except.ok ()) :
    ∃ r, run_task conv target sig message t mws = Except.ok r :=
  run_task_ok_aux conv target sig message t mws hconv hmw

theorem run_task_never_raises_witness :
    ∃ r, run_task convStd hExc none msgEmpty 0 [mwGood] = Except.ok r :=
  run_task_never_raises convStd hExc none msgEmpty 0 [mwGood]
    convStd_ne_errOther
    (fun mw h => by
      rw [List.mem_singleton] at h
      subst h
      exact fun _ _ => rfl)

/-- C5 counterexample: a conversion failing with an exception class other
than ValueError/RuntimeError (for instance a TypeError) is not caught:
`parse_params` raises to its caller, refuting the claim that coercion
never raises for any exception the conversion may produce. -/
theorem coercion_other_exception_raises :
    parse_params convBoom (some [("a", Annot.tyInt)])
      { task_name := "t", task_id := "i", args := [Val.vInt 1], kwargs := [] } =
    Except.error () := rfl

/-- C5 amended: when every conversion failure is a ValueError or
RuntimeError (the classes the source catches), `parse_params` never
raises, and every failing value is left unchanged in place — also in
mixed runs where other values convert successfully: the typed parameter
of rank `i` targets positional index `i`, and if the original value
there fails its conversion, the slot still holds that original value
afterwards; likewise a keyword argument all of whose parameter's
conversions fail (or whose parameter is untyped) keeps its original
binding.  Failures of any other exception class propagate to the
caller. -/
theorem parse_params_swallows_value_errors (conv : Annot → Val → ParseOutcome)
    (sig : List (String × Annot)) (msg : TaskiqMessage)
    (hconv : ∀ a v, conv a v ≠ ParseOutcome.errOther) :
    ∃ msg2,
      parse_params conv (some sig) msg = Except.ok msg2 ∧
      (∀ i a v, (typedAnnots sig).get? i = some a →
        msg.args.get? i = some v →
        conv a v = ParseOutcome.errValueOrRuntime →
        msg2.args.get? i = some v) ∧
      (∀ k, (∀ a, (k, a) ∈ sig → a = Annot.empty ∨
          conv a (kwGet msg.kwargs k) = ParseOutcome.errValueOrRuntime) →
        kwLookup msg2.kwargs k = kwLookup msg.kwargs k) := by
  obtain ⟨msg2, h⟩ := parseParamsGo_ok conv hconv sig 0 msg
  obtain ⟨hp, hkw⟩ := parseParamsGo_keeps_failed conv sig 0 msg msg2 h
  refine ⟨msg2, h, fun i a v h1 h2 h3 => ?_, hkw⟩
  have h2b : msg.args.get? (0 + i) = some v := by rw [Nat.zero_add]; exact h2
  have := hp i a v h1 h2b h3
  rwa [Nat.zero_add] at this

theorem parse_params_swallows_value_errors_witness :
    ∃ msg2,
      parse_params convStd (some [("a", Annot.tyInt), ("b", Annot.tyInt)])
        { task_name := "t", task_id := "i",
          args := [Val.vStr "x", Val.vBool true], kwargs := [] } =
        Except.ok msg2 ∧
      msg2.args.get? 0 = some (Val.vStr "x") ∧
      msg2.args.get? 1 = some (Val.vInt 1) := by
  obtain ⟨msg2, hok, hkeep, _⟩ :=
    parse_params_swallows_value_errors convStd
      [("a", Annot.tyInt), ("b", Annot.tyInt)]
      { task_name := "t", task_id := "i",
        args := [Val.vStr "x", Val.vBool true], kwargs := [] }
      convStd_ne_errOther
  have hmsg2 : msg2 =
      { task_name := "t", task_id := "i",
        args := [Val.vStr "x", Val.vInt 1], kwargs := [] } :=
    Except.ok.inj (hok.symm.trans rfl)
  refine ⟨msg2, hok, hkeep 0 Annot.tyInt (Val.vStr "x") rfl rfl rfl, ?_⟩
  rw [hmsg2]
  rfl

/-- C6: two shutdown triggers in rapid succession — the second delivered
after the first has run — schedule exactly one broker-teardown task and
register exactly one exit_process (process-exit) callback; and any
trigger that observes the shutting-down flag performs no action at
all. -/
theorem signal_handler_shutdown_once :
    (signal_handler (signal_handler initialShutdownState)).scheduled_shutdowns = 1 ∧
    (signal_handler (signal_handler initialShutdownState)).exit_callbacks = 1 ∧
    ∀ s : ShutdownState, s.is_shutting_down = true → signal_handler s = s := by
  refine ⟨rfl, rfl, fun s hs => ?_⟩
  simp [signal_handler, hs]

theorem signal_handler_shutdown_once_witness :
    signal_handler
        { is_shutting_down := true, scheduled_shutdowns := 2, exit_callbacks := 2 } =
      { is_shutting_down := true, scheduled_shutdowns := 2, exit_callbacks := 2 } :=
  signal_handler_shutdown_once.2.2
    { is_shutting_down := true, scheduled_shutdowns := 2, exit_callbacks := 2 } rfl

/-- C7: whenever `run_task` returns a result, `is_err` is true exactly
when the handler raised on the (coerced) message of that invocation. -/
theorem run_task_is_err_iff (conv : Annot → Val → ParseOutcome)
    (target : Handler) (sig : Option (List (String × Annot)))
    (message msg2 : TaskiqMessage) (t : Nat) (mws : List TaskiqMiddleware)
    (r : TaskiqResult)
    (hp : parse_params conv sig message = Except.ok msg2)
    (hr : run_task conv target sig message t mws = Except.ok r) :
    r.is_err = true ↔ (target.run msg2).1 = HandlerOutcome.exc := by
  have hco :
      (if target.isCoroutine then target.run msg2 else run_sync target.run msg2) =
        target.run msg2 := by
    cases h2 : target.isCoroutine <;> simp [h2, run_sync]
  simp only [run_task, hp, hco] at hr
  cases hcase : (target.run msg2).1 with
  | ok v =>
      rw [hcase] at hr
      simp only [reduceCtorEq, decide_False, Bool.false_eq_true, if_false,
        Except.ok.injEq] at hr
      rw [← hr]
      simp [hcase]
  | exc =>
      rw [hcase] at hr
      simp only [decide_True, if_true] at hr
      split at hr
      · simp only [Except.ok.injEq] at hr
        rw [← hr]
        simp [hcase]
      · exact Except.noConfusion hr

theorem run_task_is_err_iff_witness :
    ({ is_err := true, log := "", return_value := Val.vNone,
        execution_time := 0 } : TaskiqResult).is_err = true ↔
      (hExc.run msgEmpty).1 = HandlerOutcome.exc :=
  run_task_is_err_iff convStd hExc none msgEmpty msgEmpty 0 []
    { is_err := true, log := "", return_value := Val.vNone, execution_time := 0 }
    rfl rfl

/-- C8 counterexample: a message that resolves to a registered task and
decodes successfully can still yield no ExecutionResult and no
set_result call — here a pre_execute hook raises before the executor is
reached — refuting the unconditional exactly-one-result claim. -/
theorem known_message_without_result :
    regLookup brokerBadPre.available_tasks "t1" = some hOk ∧
    brokerBadPre.loads { task_name := "t1", task_id := "i9" } =
      Except.ok { task_name := "t1", task_id := "i9", args := [], kwargs := [] } ∧
    ((processMessage convStd brokerBadPre [] 0
        { task_name := "t1", task_id := "i9" }).1.countP Event.isSetResult = 0) :=
  ⟨rfl, rfl, rfl⟩

/-- C8 amended: provided no middleware hook raises and every conversion
failure is a ValueError/RuntimeError, a consumed message that resolves
to a registered task and decodes successfully reaches the executor
exactly once and causes exactly one set_result call (even when the
result backend itself fails, the call is made exactly once); and
unconditionally, a message whose task name is unregistered or whose
decode raises never reaches the executor and never causes a set_result
call. -/
theorem one_result_per_processed_message (conv : Annot → Val → ParseOutcome)
    (broker : AsyncBroker) (ts : List (String × List (String × Annot)))
    (t : Nat) (m : RawMessage) :
    ((∀ a v, conv a v ≠ ParseOutcome.errOther) →
      (∀ mw ∈ broker.middlewares, goodMiddleware mw) →
      (∃ handler, regLookup broker.available_tasks m.task_name = some handler) →
      (∃ tm, broker.loads m = Except.ok tm) →
      (processMessage conv broker ts t m).1.countP Event.isSetResult = 1 ∧
      (processMessage conv broker ts t m).1.countP Event.isExecuted = 1 ∧
      (processMessage conv broker ts t m).2 = false) ∧
    ((regLookup broker.available_tasks m.task_name = none ∨
        broker.loads m = Except.error ()) →
      (processMessage conv broker ts t m).1.countP Event.isSetResult = 0 ∧
      (processMessage conv broker ts t m).1.countP Event.isExecuted = 0) := by
  constructor
  · intro hconv hmw hreg hdec
    obtain ⟨handler, hr⟩ := hreg
    obtain ⟨tm, hl⟩ := hdec
    obtain ⟨m1, hpre⟩ := runPre_ok broker.middlewares hmw tm
    obtain ⟨r, hrt⟩ := run_task_ok_aux conv handler
      (regLookup ts m.task_name) m1 t broker.middlewares hconv
      (fun mw h => (hmw mw h).2.1)
    simp only [processMessage, hr, hl, hpre, hrt,
      runPost_ok broker.middlewares hmw m1 r]
    cases hs : broker.set_result m.task_id r <;>
      simp [List.countP_cons, Event.isSetResult, Event.isExecuted]
  · intro hbad
    rcases hbad with h | h
    · simp [processMessage, h, List.countP_cons, Event.isSetResult,
        Event.isExecuted]
    · cases hr : regLookup broker.available_tasks m.task_name with
      | none =>
          simp [processMessage, hr, List.countP_cons, Event.isSetResult,
            Event.isExecuted]
      | some handler =>
          simp [processMessage, hr, h, List.countP_cons, Event.isSetResult,
            Event.isExecuted]

theorem one_result_per_processed_message_witness :
    ((processMessage convStd brokerMixed [] 0
        { task_name := "t1", task_id := "c" }).1.countP Event.isSetResult = 1) ∧
    ((processMessage convStd brokerGhost [] 0
        { task_name := "ghost", task_id := "g" }).1.countP Event.isSetResult = 0) :=
  ⟨((one_result_per_processed_message convStd brokerMixed [] 0
      { task_name := "t1", task_id := "c" }).1 convStd_ne_errOther
      brokerMixed_good ⟨hExc, rfl⟩
      ⟨{ task_name := "t1", task_id := "c", args := [], kwargs := [] }, rfl⟩).1,
   ((one_result_per_processed_message convStd brokerGhost [] 0
      { task_name := "ghost", task_id := "g" }).2 (Or.inl rfl)).1⟩

/-- C9: the exit status computed at shutdown is 0 exactly when the
broker-teardown task completed without raising and 1 exactly when it
raised; the teardown task's outcome is the only input of exit_process,
so no other condition affects the status. -/
theorem exit_process_exitcode (t : Except Unit (Option Val)) :
    ((exit_process t).exitcode = 0 ↔ ∃ v, t = Except.ok v) ∧
    ((exit_process t).exitcode = 1 ↔ t = Except.error ()) := by
  cases t with
  | ok v => constructor <;> simp [exit_process]
  | error e =>
      cases e
      constructor <;> simp [exit_process]

theorem exit_process_exitcode_witness :
    (exit_process (Except.error ())).exitcode = 1 :=
  (exit_process_exitcode (Except.error ())).2.mpr rfl

/-- C10 counterexample: `parse_params` can replace the positional
argument sitting at an UNTYPED parameter's position — with signature
`(x, y: int)` the typed parameter `y` coerces `args[0]`, the argument
belonging to the untyped `x`, changing it from False to 0 — refuting
the claimed bit-for-bit preservation of arguments belonging to untyped
parameters. -/
theorem untyped_positional_argument_modified :
    parse_params convStd (some [("x", Annot.empty), ("y", Annot.tyInt)])
      { task_name := "u", task_id := "j",
        args := [Val.vBool false, Val.vInt 3], kwargs := [] } =
    Except.ok
      { task_name := "u", task_id := "j",
        args := [Val.vInt 0, Val.vInt 3], kwargs := [] } ∧
    Val.vInt 0 ≠ Val.vBool false := by
  refine ⟨rfl, ?_⟩
  decide

/-- C10 amended: `parse_params` only ever replaces existing argument
values: the task identity fields, the number of positional arguments
and the keyword-argument key list are unchanged; every `None`-valued
positional argument, every `None`-valued keyword argument, and the
keyword binding of every name that is not a typed parameter of the
signature are bit-for-bit the originals.  A positional argument at an
untyped parameter's position, however, may be replaced, because the
positional index counts only typed parameters. -/
theorem parse_params_frame (conv : Annot → Val → ParseOutcome)
    (sig : List (String × Annot)) (msg msg2 : TaskiqMessage)
    (h : parse_params conv (some sig) msg = Except.ok msg2) :
    ParamsFrame sig msg msg2 :=
  parseParamsGo_frame conv sig 0 msg msg2 h

theorem parse_params_frame_witness :
    ParamsFrame [("a", Annot.tyInt)]
      { task_name := "t", task_id := "i", args := [Val.vBool true], kwargs := [] }
      { task_name := "t", task_id := "i", args := [Val.vInt 1], kwargs := [] } :=
  parse_params_frame convStd [("a", Annot.tyInt)]
    { task_name := "t", task_id := "i", args := [Val.vBool true], kwargs := [] }
    { task_name := "t", task_id := "i", args := [Val.vInt 1], kwargs := [] } rfl
